import Mathlib

/-!
A shallow embedding of the `glow` dataflow library (`glow.go`).

The embedding follows the Go source function by function:

* `GoType`, `FuncType`, `RVal` model the fragment of `reflect` that the
  library touches: channel and slice types with `Elem`, function parameter
  lists with variadicity, and `reflect.Value` restricted to the invalid
  zero value, channel values and opaque other values.  A channel value
  carries its full channel type, its buffer capacity and an identity tag,
  so that "the same channel instance" is expressible.
* `Argument`, `Node`, `newNode`, `Node.setArg`, `Node.makeChan` embed the
  `Argument` / `Node` half of the source; `Graph`, `Graph.addNode`,
  `Graph.connect`, `Graph.setForeground`, `Graph.run` embed the `Graph`
  half; `splitChar` / `splitNamePort` embed `strings.Split` as used by
  `splitNamePort`.
* Go panics are modelled by `GlowErr` results.  `Graph.connect` mutates
  the graph through pointers before it can panic, so its embedding
  returns the (possibly partially mutated) graph together with the
  result, while the operations that cannot mutate before panicking
  return `Except`.
* `Graph.run` launches goroutines; launching is modelled as a trace of
  `RunEvent`s: `spawn` for `go node.Run()` and `runSync` for the
  synchronous foreground `fgNode.Run()` call.
* The visualizer-only bookkeeping (`connStr`, `DotString`) is consumed
  by no operation modelled here and is omitted; `lastChan` is kept
  because it supplies the per-graph channel counter.
-/

namespace Glow

/-- Go types as the wiring engine sees them: channel types, slice types
(the reflect view of a variadic tail) and otherwise unanalysed base
types. -/
inductive GoType where
  | chan : GoType → GoType
  | slice : GoType → GoType
  | base : Nat → GoType
deriving DecidableEq, Repr

/-- `reflect.Type.Elem`: the element type of a channel or slice; a panic
(`none`) on a base type. -/
def GoType.elem : GoType → Option GoType
  | .chan t => some t
  | .slice t => some t
  | .base _ => none

/-- The reflect view of a function type: its parameter types in order
(`NumIn` / `In`) and whether it is variadic.  A genuine Go variadic
function's last parameter is a slice type. -/
structure FuncType where
  params : List GoType
  variadic : Bool
deriving DecidableEq, Repr

/-- `reflect.Value` restricted to what glow stores: the invalid zero
`Value`, channel values (with their channel type, buffer capacity and an
identity tag distinguishing distinct `reflect.MakeChan` results), and
opaque other values such as the graph's globals. -/
inductive RVal where
  | invalid : RVal
  | chanRef : GoType → Int → Nat → RVal
  | other : Nat → RVal
deriving DecidableEq, Repr

/-- `reflect.Value.IsValid`. -/
def RVal.isValid : RVal → Bool
  | .invalid => false
  | _ => true

/-- The panics the library can raise, both its own (`Argument not
found.`, `Argument alread set: ...`, `Node already added: ...`) and the
runtime/reflect panics it can trigger (slice index out of range, method
call on a nil `*Node`, `reflect` panics from `In`, `Elem` or
`MakeChan`). -/
inductive GlowErr where
  | argNotFound
  | argAlreadySet (name : String)
  | nodeAlreadyAdded (name : String)
  | indexOutOfRange
  | nilPointer
  | reflectPanic
deriving DecidableEq, Repr

/-- One named, typed argument slot of a node (`type Argument`).  The
zero `reflect.Value` of a fresh slot is `RVal.invalid`. -/
structure Argument where
  name : String
  val : RVal
  type : GoType
deriving DecidableEq, Repr

/-- `type Node`: name, the run function's reflect type, and the ordered
argument slots.  The function's value itself never influences wiring, so
only its type is kept. -/
structure Node where
  name : String
  ft : FuncType
  args : List Argument
deriving DecidableEq, Repr

/-- The declared type `NewNode`'s loop assigns to argument slot `i`:
for a variadic function every slot at or beyond index `NumIn()-1` takes
`In(NumIn()-1).Elem()`, otherwise slot `i` takes `In(i)` (which panics
out of range). -/
def argTypeAt (ft : FuncType) (i : Nat) : Option GoType :=
  if ft.variadic = true ∧ ft.params.length ≤ i + 1 then
    (ft.params.get? (ft.params.length - 1)).bind GoType.elem
  else
    ft.params.get? i

/-- The argument-building loop of `NewNode`, started at slot index
`start` with the remaining slot names. -/
def buildArgs (ft : FuncType) : Nat → List String → Except GlowErr (List Argument)
  | _, [] => .ok []
  | i, nm :: rest =>
    match argTypeAt ft i with
    | none => .error .reflectPanic
    | some t =>
      match buildArgs ft (i + 1) rest with
      | .error e => .error e
      | .ok tailArgs => .ok (⟨nm, .invalid, t⟩ :: tailArgs)

/-- `NewNode(fn, name, argNames...)`: prepend the implicit `"globals"`
slot name and build the argument slots from the function signature. -/
def newNode (ft : FuncType) (name : String) (argNames : List String) : Except GlowErr Node :=
  match buildArgs ft 0 ("globals" :: argNames) with
  | .error e => .error e
  | .ok args => .ok { name := name, ft := ft, args := args }

/-- The loop body of `Node.SetArg`: find the first slot with the given
name; panic if it already holds a valid value, otherwise store the
value; panic after the loop when no slot matches. -/
def setArgList : List Argument → String → RVal → Except GlowErr (List Argument)
  | [], _, _ => .error .argNotFound
  | a :: rest, nm, v =>
    if a.name = nm then
      if a.val.isValid then .error (.argAlreadySet nm)
      else .ok ({ a with val := v } :: rest)
    else
      match setArgList rest nm v with
      | .error e => .error e
      | .ok rest' => .ok (a :: rest')

/-- `Node.SetArg(name, val)`. -/
def Node.setArg (node : Node) (nm : String) (v : RVal) : Except GlowErr Node :=
  match setArgList node.args nm v with
  | .error e => .error e
  | .ok args' => .ok { node with args := args' }

/-- `Node.MakeChan(name, size)`: find the first slot with the given name
and build `reflect.MakeChan(arg.Type, size)`; that reflect call panics
unless the slot's declared type is a channel type and the size is
nonnegative.  `cid` is the identity tag of the created channel. -/
def Node.makeChan (node : Node) (nm : String) (size : Int) (cid : Nat) : Except GlowErr RVal :=
  match node.args.find? (fun a => a.name = nm) with
  | none => .error .argNotFound
  | some a =>
    match a.type with
    | .chan _ => if 0 ≤ size then .ok (.chanRef a.type size cid) else .error .reflectPanic
    | _ => .error .reflectPanic

/-- `strings.Split` with a single-character separator: the result always
has at least one element, and splitting around each separator
occurrence. -/
def splitChar (c : Char) : List Char → List (List Char)
  | [] => [[]]
  | x :: xs =>
    if x = c then [] :: splitChar c xs
    else
      match splitChar c xs with
      | [] => [[x]]
      | y :: ys => (x :: y) :: ys

/-- `splitNamePort(s)`: `x := strings.Split(s, ":"); return x[0], x[1]`.
Index `1` is out of range exactly when `s` contains no colon; that
runtime panic is modelled as `none`. -/
def splitNamePort (s : String) : Option (String × String) :=
  match splitChar ':' s.toList with
  | a :: b :: _ => some (String.mk a, String.mk b)
  | _ => none

/-- `type Graph`: the channel counter, the node registry (the Go map
with its pointer contents, as an association list), the shared globals
value and the foreground node name (zero value `""`). -/
structure Graph where
  lastChan : Nat
  nodes : List (String × Node)
  globals : RVal
  fgName : String
deriving DecidableEq, Repr

/-- `NewGraph(globals)`. -/
def Graph.new (globals : RVal) : Graph :=
  { lastChan := 0, nodes := [], globals := globals, fgName := "" }

/-- `g.nodes[name]` where a missing key yields the nil pointer,
modelled as `none`. -/
def lookupNode (g : Graph) (nm : String) : Option Node :=
  (g.nodes.find? (fun p => p.1 = nm)).map (·.2)

/-- `Graph.AddNode(fn, name, argNames...)`: panic on a duplicate name,
build the node, bind its `"globals"` slot to the graph's globals, then
register it. -/
def Graph.addNode (g : Graph) (ft : FuncType) (nm : String) (argNames : List String) :
    Except GlowErr Graph :=
  if (lookupNode g nm).isSome then .error (.nodeAlreadyAdded nm)
  else
    match newNode ft nm argNames with
    | .error e => .error e
    | .ok node =>
      match node.setArg "globals" g.globals with
      | .error e => .error e
      | .ok node' => .ok { g with nodes := g.nodes ++ [(nm, node')] }

/-- Store an updated node back under its registry key (the Go map holds
a pointer, so `SetArg` through it updates the registered node in
place). -/
def updateNode : List (String × Node) → String → Node → List (String × Node)
  | [], _, _ => []
  | (k, nd) :: rest, nm, nd' =>
    if k = nm then (k, nd') :: rest
    else (k, nd) :: updateNode rest nm nd'

/-- The binding loop of `Graph.Connect`: for each endpoint, split it,
look the node up (a nil pointer panic when absent) and `SetArg` the
channel into the named port.  Mutations made before a panic persist, so
the graph travels alongside the result. -/
def connectLoop (ch : RVal) : Graph → List String → Graph × Except GlowErr Unit
  | g, [] => (g, .ok ())
  | g, s :: rest =>
    match splitNamePort s with
    | none => (g, .error .indexOutOfRange)
    | some (nm, pt) =>
      match lookupNode g nm with
      | none => (g, .error .nilPointer)
      | some nd =>
        match nd.setArg pt ch with
        | .error e => (g, .error e)
        | .ok nd' => connectLoop ch { g with nodes := updateNode g.nodes nm nd' } rest

/-- `Graph.Connect(size, nodeChans...)`: split the first endpoint
(`nodeChans[0]` panics on an empty list), make one channel from its
port's declared type, advance the channel counter, then bind that one
channel into every listed endpoint and return it. -/
def Graph.connect (g : Graph) (size : Int) (nodeChans : List String) :
    Graph × Except GlowErr RVal :=
  match nodeChans with
  | [] => (g, .error .indexOutOfRange)
  | s0 :: _ =>
    match splitNamePort s0 with
    | none => (g, .error .indexOutOfRange)
    | some (nm0, pt0) =>
      match lookupNode g nm0 with
      | none => (g, .error .nilPointer)
      | some nd0 =>
        match nd0.makeChan pt0 size g.lastChan with
        | .error e => (g, .error e)
        | .ok ch =>
          match connectLoop ch { g with lastChan := g.lastChan + 1 } nodeChans with
          | (g', .ok _) => (g', .ok ch)
          | (g', .error e) => (g', .error e)

/-- `Graph.SetForeground(name)`: store the name, unconditionally. -/
def Graph.setForeground (g : Graph) (nm : String) : Graph :=
  { g with fgName := nm }

/-- One scheduling action of `Graph.Run`: `spawn` is `go node.Run()`,
`runSync` is the blocking foreground `fgNode.Run()` call. -/
inductive RunEvent where
  | spawn (name : String)
  | runSync (name : String)
deriving DecidableEq, Repr

/-- The loop of `Graph.Run`: spawn every node whose name differs from
the foreground name, remembering the last node whose name matches as
the foreground node. -/
def runEvents (fg : String) : List (String × Node) → List RunEvent × Option Node
  | [] => ([], none)
  | (_, nd) :: rest =>
    if nd.name = fg then
      ((runEvents fg rest).1, some ((runEvents fg rest).2.getD nd))
    else
      (.spawn nd.name :: (runEvents fg rest).1, (runEvents fg rest).2)

/-- `Graph.Run()`: spawn all non-foreground nodes, then run the
foreground node (if one was found) synchronously. -/
def Graph.run (g : Graph) : List RunEvent :=
  match runEvents g.fgName g.nodes with
  | (evs, some nd) => evs ++ [.runSync nd.name]
  | (evs, none) => evs

/-- Observer: the value currently bound into node `nm`'s port `pt`
(first slot of that name), when both exist. -/
def portVal (g : Graph) (nm pt : String) : Option RVal :=
  (lookupNode g nm).bind fun nd => (nd.args.find? (fun a => a.name = pt)).map (·.val)

/-- Observer: the declared type of node `nm`'s port `pt` (first slot of
that name), when both exist. -/
def portType (g : Graph) (nm pt : String) : Option GoType :=
  (lookupNode g nm).bind fun nd => (nd.args.find? (fun a => a.name = pt)).map (·.type)

/-- An endpoint string that resolves, in graph `g`, to a registered node
and a port that exists and is still unbound. -/
def resolvesUnbound (g : Graph) (s : String) : Bool :=
  match splitNamePort s with
  | some (nm, pt) => decide (portVal g nm pt = some RVal.invalid)
  | none => false

/-! Concrete test fixtures used to instantiate the theorems below. -/

/-- Extract a graph from a successful construction step. -/
def getOk : Except GlowErr Graph → Graph
  | .ok g => g
  | .error _ => Graph.new .invalid

/-- Extract a node from a successful construction step. -/
def getOkNode : Except GlowErr Node → Node
  | .ok nd => nd
  | .error _ => { name := "", ft := ⟨[], false⟩, args := [] }

/-- Whether a construction step succeeded. -/
def isOkG : Except GlowErr Graph → Bool
  | .ok _ => true
  | .error _ => false

/-- `func(globals T0, port chan T1)`. -/
def ftChan2 : FuncType := ⟨[.base 0, .chan (.base 1)], false⟩

/-- `func(globals T0, x T1)`: the second parameter is not a channel. -/
def ftInt : FuncType := ⟨[.base 0, .base 1], false⟩

/-- `func(globals T0, a chan T1, b chan T1)`: two channel parameters. -/
def ftThree : FuncType := ⟨[.base 0, .chan (.base 1), .chan (.base 1)], false⟩

/-- `func(globals T0, a chan T1, rest ...chan T2)`: a variadic tail. -/
def ftVar : FuncType := ⟨[.base 0, .chan (.base 1), .slice (.chan (.base 2))], true⟩

/-- `func(globals T0)`: no ports. -/
def ftG : FuncType := ⟨[.base 0], false⟩

/-- A graph holding the single node `A` with channel port `X`. -/
def gA : Graph := getOk ((Graph.new (.other 0)).addNode ftChan2 "A" ["X"])

/-- `gA` extended with node `B` with channel port `Y`. -/
def gAB : Graph := getOk (gA.addNode ftChan2 "B" ["Y"])

/-- A graph holding node `A` whose port `X` has the non-channel type
`T1`. -/
def gInt : Graph := getOk ((Graph.new (.other 0)).addNode ftInt "A" ["X"])

/-- `gAB` after `Connect(0, "B:Y")`, so `B`'s port `Y` is already
bound. -/
def gPre : Graph := (gAB.connect 0 ["B:Y"]).1

/-- A graph holding one node whose name is the empty string, with no
foreground designation ever made. -/
def gEmptyName : Graph := getOk ((Graph.new (.other 0)).addNode ftG "" [])

/-- The registered node `A` of `gA`. -/
def nodeA : Node :=
  match lookupNode gA "A" with
  | some nd => nd
  | none => { name := "", ft := ⟨[], false⟩, args := [] }

/-- The registered node `B` of `gAB`. -/
def nodeB : Node :=
  match lookupNode gAB "B" with
  | some nd => nd
  | none => { name := "", ft := ⟨[], false⟩, args := [] }

/-- The variadic node fixture: five slots, the last three typed by the
variadic tail's element type. -/
def ndV : Node := getOkNode (newNode ftVar "V" ["a", "b", "c", "d"])

/-! Lemmas about `splitChar` and `splitNamePort`. -/

theorem splitChar_ne_nil (c : Char) : ∀ l : List Char, splitChar c l ≠ []
  | [] => by simp [splitChar]
  | x :: xs => by
    unfold splitChar
    by_cases h : x = c
    · simp [h]
    · simp only [if_neg h]
      cases hs : splitChar c xs <;> simp

theorem splitChar_not_mem {c : Char} : ∀ {l : List Char}, c ∉ l → splitChar c l = [l]
  | [], _ => rfl
  | x :: xs, h => by
    have hx : ¬ x = c := fun he => h (he ▸ List.mem_cons_self x xs)
    have hxs : c ∉ xs := fun hm => h (List.mem_cons_of_mem _ hm)
    unfold splitChar
    rw [if_neg hx, splitChar_not_mem hxs]

theorem splitChar_sep {c : Char} : ∀ {a : List Char} (rest : List Char), c ∉ a →
    splitChar c (a ++ c :: rest) = a :: splitChar c rest
  | [], rest, _ => by simp [splitChar]
  | x :: a', rest, h => by
    have hx : ¬ x = c := fun he => h (he ▸ List.mem_cons_self x a')
    have ha' : c ∉ a' := fun hm => h (List.mem_cons_of_mem _ hm)
    have ih := splitChar_sep (a := a') rest ha'
    show splitChar c (x :: (a' ++ c :: rest)) = (x :: a') :: splitChar c rest
    simp only [splitChar, if_neg hx, ih]

/-- Claim C10 (confirmed): `splitNamePort` takes the node name from the
text before the first colon and the port name from the text between the
first and second colon; an endpoint with no colon hits the
out-of-range index `x[1]` (a runtime panic, not a descriptive wiring
error, and `Connect` propagates it as such), and text after a second
colon is silently ignored. -/
theorem claim_C10 :
    (∀ s : String, ':' ∉ s.toList → splitNamePort s = none) ∧
    (∀ a b tl : List Char, ':' ∉ a → ':' ∉ b →
      splitNamePort (String.mk (a ++ ':' :: (b ++ ':' :: tl))) =
        some (String.mk a, String.mk b)) ∧
    (∀ a b : List Char, ':' ∉ a → ':' ∉ b →
      splitNamePort (String.mk (a ++ ':' :: b)) = some (String.mk a, String.mk b)) ∧
    (∀ (g : Graph) (size : Int) (s : String) (rest : List String), splitNamePort s = none →
      g.connect size (s :: rest) = (g, .error .indexOutOfRange)) := by
  refine ⟨?_, ?_, ?_, ?_⟩
  · intro s hs
    have hs' : splitChar ':' s.data = [s.data] := splitChar_not_mem hs
    simp [splitNamePort, hs']
  · intro a b tl ha hb
    have h2 : splitChar ':' (b ++ ':' :: tl) = b :: splitChar ':' tl := splitChar_sep _ hb
    have h1 : splitChar ':' (a ++ ':' :: (b ++ ':' :: tl)) = a :: (b :: splitChar ':' tl) := by
      rw [splitChar_sep _ ha, h2]
    simp [splitNamePort, h1]
  · intro a b ha hb
    have h1 : splitChar ':' (a ++ ':' :: b) = a :: [b] := by
      rw [splitChar_sep _ ha, splitChar_not_mem hb]
    simp [splitNamePort, h1]
  · intro g size s rest h
    simp [Graph.connect, h]

/-- Witness for C10 at concrete endpoints: `"AB"` has no colon and
fails; `"A:B:C"` resolves to node `"A"` and port `"B"`, ignoring
`"C"`. -/
theorem claim_C10_witness :
    splitNamePort "AB" = none ∧
    splitNamePort (String.mk (['A'] ++ ':' :: (['B'] ++ ':' :: ['C']))) =
      some (String.mk ['A'], String.mk ['B']) :=
  ⟨claim_C10.1 "AB" (by decide), claim_C10.2.1 ['A'] ['B'] ['C'] (by decide) (by decide)⟩

/-! Lemmas about the launch trace of `Graph.run`. -/

theorem runEvents_all_spawn {fg : String} : ∀ {ns : List (String × Node)},
    (∀ p ∈ ns, p.2.name ≠ fg) →
    runEvents fg ns = (ns.map fun p => RunEvent.spawn p.2.name, none)
  | [], _ => rfl
  | (k, nd) :: rest, h => by
    have hnd : ¬ nd.name = fg := h (k, nd) (List.mem_cons_self _ _)
    have hrest := runEvents_all_spawn fun p hp => h p (List.mem_cons_of_mem _ hp)
    simp [runEvents, if_neg hnd, hrest]

theorem runEvents_fst {fg : String} : ∀ ns : List (String × Node),
    (runEvents fg ns).1 =
      (ns.filter fun p => p.2.name != fg).map fun p => RunEvent.spawn p.2.name
  | [] => rfl
  | (k, nd) :: rest => by
    have ih := @runEvents_fst fg rest
    by_cases h : nd.name = fg
    · simp [runEvents, if_pos h, List.filter_cons, h, ih]
    · simp [runEvents, if_neg h, List.filter_cons, bne_iff_ne, h, ih]

theorem runEvents_snd_some_name {fg : String} : ∀ {ns : List (String × Node)} {nd : Node},
    (runEvents fg ns).2 = some nd → nd.name = fg
  | [], _, h => by simp [runEvents] at h
  | (k, nd0) :: rest, nd, h => by
    by_cases hn : nd0.name = fg
    · simp only [runEvents, if_pos hn] at h
      have h' : (runEvents fg rest).2.getD nd0 = nd := by
        simpa using h
      rcases ho : (runEvents fg rest).2 with _ | nd'
      · rw [ho] at h'
        simp at h'
        rw [← h']
        exact hn
      · rw [ho] at h'
        simp at h'
        rw [← h']
        exact runEvents_snd_some_name ho
    · simp only [runEvents, if_neg hn] at h
      exact runEvents_snd_some_name (by simpa using h)

theorem runEvents_snd_isSome {fg : String} : ∀ {ns : List (String × Node)},
    (∃ p ∈ ns, p.2.name = fg) → (runEvents fg ns).2.isSome = true
  | [], h => by simp at h
  | (k, nd0) :: rest, h => by
    by_cases hn : nd0.name = fg
    · simp [runEvents, if_pos hn]
    · rcases h with ⟨p, hp, hpn⟩
      rcases List.mem_cons.mp hp with he | hm
      · rw [he] at hpn
        exact absurd hpn hn
      · have ih := runEvents_snd_isSome ⟨p, hm, hpn⟩
        simpa [runEvents, if_neg hn] using ih

theorem run_eq (g : Graph) : g.run =
    (runEvents g.fgName g.nodes).1 ++
      (match (runEvents g.fgName g.nodes).2 with
       | some nd => [RunEvent.runSync nd.name]
       | none => []) := by
  unfold Graph.run
  rcases runEvents g.fgName g.nodes with ⟨evs, fgo⟩
  cases fgo <;> simp

theorem run_spawn_mem (g : Graph) (n : String) :
    RunEvent.spawn n ∈ g.run ↔ (∃ p ∈ g.nodes, p.2.name = n) ∧ n ≠ g.fgName := by
  have key : RunEvent.spawn n ∈ (runEvents g.fgName g.nodes).1 ↔
      (∃ p ∈ g.nodes, p.2.name = n) ∧ n ≠ g.fgName := by
    rw [runEvents_fst]
    simp only [List.mem_map, List.mem_filter, bne_iff_ne]
    constructor
    · rintro ⟨p, ⟨hp, hne⟩, hsp⟩
      have hpn : p.2.name = n := by injection hsp
      exact ⟨⟨p, hp, hpn⟩, fun hc => hne (hpn.trans hc)⟩
    · rintro ⟨⟨p, hp, hn'⟩, hne⟩
      exact ⟨p, ⟨hp, fun hc => hne (hn'.symm.trans hc)⟩, by rw [hn']⟩
  rw [run_eq, List.mem_append]
  rcases (runEvents g.fgName g.nodes).2 with _ | nd
  · simp [key]
  · simp [key]

/-- Claim C9 (amended, launch model): `go node.Run()` is a `spawn`
event and the synchronous foreground call a `runSync` event.  `Run`
spawns exactly the registered nodes whose name differs from the stored
foreground name; when some node's name equals the stored foreground
name, the trace ends with its synchronous run (so `Run` returns only
after it returns); when no node's name equals the stored foreground
name — in particular when `SetForeground` was never called and no node
is named the empty string — the trace is exactly one spawn per node,
with no synchronous run to wait for. -/
theorem claim_C9_amended (g : Graph) :
    (∀ n, RunEvent.spawn n ∈ g.run ↔ (∃ p ∈ g.nodes, p.2.name = n) ∧ n ≠ g.fgName) ∧
    (∀ n, RunEvent.runSync n ∈ g.run → n = g.fgName) ∧
    ((∃ p ∈ g.nodes, p.2.name = g.fgName) →
      g.run.getLast? = some (.runSync g.fgName)) ∧
    ((∀ p ∈ g.nodes, p.2.name ≠ g.fgName) →
      g.run = g.nodes.map fun p => RunEvent.spawn p.2.name) := by
  refine ⟨run_spawn_mem g, ?_, ?_, ?_⟩
  · intro n hn
    rw [run_eq] at hn
    have hevs : ∀ x ∈ (runEvents g.fgName g.nodes).1, ∃ m, x = RunEvent.spawn m := by
      rw [runEvents_fst]
      intro x hx
      rcases List.mem_map.mp hx with ⟨p, _, hp⟩
      exact ⟨p.2.name, hp.symm⟩
    rcases List.mem_append.mp hn with hm | hm
    · rcases hevs _ hm with ⟨m, hx⟩
      simp at hx
    · rcases ho : (runEvents g.fgName g.nodes).2 with _ | nd
      · rw [ho] at hm
        simp at hm
      · rw [ho] at hm
        have hnd : n = nd.name := by
          have := List.mem_singleton.mp hm
          injection this
        exact hnd.trans (runEvents_snd_some_name ho)
  · intro hex
    have hs := runEvents_snd_isSome hex
    rcases ho : (runEvents g.fgName g.nodes).2 with _ | nd
    · rw [ho] at hs
      simp at hs
    · have hnd : nd.name = g.fgName := runEvents_snd_some_name ho
      rw [run_eq, ho]
      simp [hnd, List.getLast?_concat]
  · intro hall
    rw [run_eq, runEvents_all_spawn hall]
    simp

/-- Witness for C9 (amended) on `gAB`, which has no foreground
designation: the trace is exactly one spawn per node. -/
theorem claim_C9_witness : gAB.run = [RunEvent.spawn "A", RunEvent.spawn "B"] := by
  have h := (claim_C9_amended gAB).2.2.2 (by decide)
  exact h.trans (by decide)

/-- Counterexample for C9 as stated: in `gEmptyName` no foreground node
was ever designated (the stored name is still the zero value `""`), yet
`Run` does not start its node as a background task and return
immediately — it runs the node named `""` synchronously, because the
undesignated state is indistinguishable from designating the empty
name. -/
theorem claim_C9_counterexample :
    gEmptyName.fgName = "" ∧ gEmptyName.run = [RunEvent.runSync ""] := by
  constructor <;> decide

/-- Claim C3 (amended): `SetForeground` performs no lookup and cannot
fail; it unconditionally stores the name (last write wins), touching
nothing else.  A name that matches no registered node simply leaves the
graph with no foreground node at `Run`: every node is spawned and
nothing runs synchronously. -/
theorem claim_C3_amended (g : Graph) (s : String) :
    (g.setForeground s).fgName = s ∧
    (g.setForeground s).nodes = g.nodes ∧
    ((∀ p ∈ g.nodes, p.2.name ≠ s) →
      (g.setForeground s).run = g.nodes.map fun p => RunEvent.spawn p.2.name) := by
  refine ⟨rfl, rfl, ?_⟩
  intro hall
  rw [run_eq]
  show (runEvents s g.nodes).1 ++
      (match (runEvents s g.nodes).2 with
       | some nd => [RunEvent.runSync nd.name]
       | none => []) = _
  rw [runEvents_all_spawn hall]
  simp

/-- Witness for C3 (amended): designating the unregistered name
`"ghost"` on `gAB` succeeds, stores the name, and at launch every node
is spawned in the background. -/
theorem claim_C3_witness :
    (gAB.setForeground "ghost").fgName = "ghost" ∧
    (gAB.setForeground "ghost").run = gAB.nodes.map fun p => RunEvent.spawn p.2.name := by
  have h := claim_C3_amended gAB "ghost"
  exact ⟨h.1, h.2.2 (by decide)⟩

/-- Counterexample for C3 as stated: `"ghost"` names no node of the
empty graph, yet `SetForeground` does not fail with a node-not-found
error — the source has no failure path at all; it records the dangling
name. -/
theorem claim_C3_counterexample :
    lookupNode (Graph.new (.other 0)) "ghost" = none ∧
    ((Graph.new (.other 0)).setForeground "ghost").fgName = "ghost" := by
  constructor <;> decide

/-! Lemmas about `setArgList` / `Node.setArg`. -/

theorem setArgList_notFound {n : String} {v : RVal} : ∀ {l : List Argument},
    setArgList l n v = .error .argNotFound ↔ l.find? (fun a => a.name = n) = none
  | [] => by simp [setArgList]
  | a :: rest => by
    by_cases h : a.name = n
    · rw [List.find?_cons_of_pos _ (by simp [h])]
      simp only [setArgList, if_pos h]
      cases hv : a.val.isValid <;> simp
    · rw [List.find?_cons_of_neg _ (by simp [h])]
      rw [← setArgList_notFound (l := rest) (n := n) (v := v)]
      simp only [setArgList, if_neg h]
      cases hs : setArgList rest n v <;> simp

theorem setArgList_already {n : String} {v : RVal} : ∀ {l : List Argument},
    setArgList l n v = .error (.argAlreadySet n) ↔
      ∃ a, l.find? (fun a => a.name = n) = some a ∧ a.val.isValid = true
  | [] => by simp [setArgList]
  | a :: rest => by
    by_cases h : a.name = n
    · rw [List.find?_cons_of_pos _ (by simp [h])]
      simp only [setArgList, if_pos h]
      cases hv : a.val.isValid <;> simp [hv]
    · rw [List.find?_cons_of_neg _ (by simp [h])]
      rw [← setArgList_already (l := rest) (n := n) (v := v)]
      simp only [setArgList, if_neg h]
      cases hs : setArgList rest n v <;> simp

theorem setArgList_ok_spec {nm : String} {v : RVal} : ∀ {l l' : List Argument},
    setArgList l nm v = .ok l' →
    ∃ a, l.find? (fun x => x.name = nm) = some a ∧ a.val.isValid = false ∧
      l'.find? (fun x => x.name = nm) = some { a with val := v } ∧
      (∀ q, q ≠ nm → l'.find? (fun x => x.name = q) = l.find? (fun x => x.name = q)) ∧
      (∀ q, (l'.find? (fun x => x.name = q)).map Argument.type =
            (l.find? (fun x => x.name = q)).map Argument.type)
  | [], l', h => by simp [setArgList] at h
  | a :: rest, l', h => by
    by_cases hn : a.name = nm
    · simp only [setArgList, if_pos hn] at h
      cases hv : a.val.isValid
      · rw [if_neg (by simp [hv])] at h
        have hl' : l' = { a with val := v } :: rest := by
          have := Except.ok.inj h
          exact this.symm
        subst hl'
        refine ⟨a, ?_, hv, ?_, ?_, ?_⟩
        · exact List.find?_cons_of_pos _ (by simp [hn])
        · exact List.find?_cons_of_pos _ (by simp [hn])
        · intro q hq
          rw [List.find?_cons_of_neg _ (by simp; exact fun hc => hq (hc.symm.trans hn)),
            List.find?_cons_of_neg _ (by simp; exact fun hc => hq (hc.symm.trans hn))]
        · intro q
          by_cases hq : a.name = q
          · rw [List.find?_cons_of_pos _ (by simp [hq]),
              List.find?_cons_of_pos _ (by simp [hq])]
            simp
          · rw [List.find?_cons_of_neg _ (by simp [hq]),
              List.find?_cons_of_neg _ (by simp [hq])]
      · rw [if_pos (by simp [hv])] at h
        exact absurd h (by simp)
    · simp only [setArgList, if_neg hn] at h
      cases hs : setArgList rest nm v with
      | error e =>
        rw [hs] at h
        exact absurd h (by simp)
      | ok r =>
        rw [hs] at h
        have hl' : l' = a :: r := (Except.ok.inj h).symm
        subst hl'
        rcases setArgList_ok_spec (l := rest) hs with ⟨b, hfind, hval, hfind', hpres, htype⟩
        refine ⟨b, ?_, hval, ?_, ?_, ?_⟩
        · rw [List.find?_cons_of_neg _ (by simp [hn])]
          exact hfind
        · rw [List.find?_cons_of_neg _ (by simp [hn])]
          exact hfind'
        · intro q hq
          by_cases hqa : a.name = q
          · rw [List.find?_cons_of_pos _ (by simp [hqa]),
              List.find?_cons_of_pos _ (by simp [hqa])]
          · rw [List.find?_cons_of_neg _ (by simp [hqa]),
              List.find?_cons_of_neg _ (by simp [hqa])]
            exact hpres q hq
        · intro q
          by_cases hqa : a.name = q
          · rw [List.find?_cons_of_pos _ (by simp [hqa]),
              List.find?_cons_of_pos _ (by simp [hqa])]
          · rw [List.find?_cons_of_neg _ (by simp [hqa]),
              List.find?_cons_of_neg _ (by simp [hqa])]
            exact htype q

theorem setArgList_ok_of_unbound {nm : String} {v : RVal} : ∀ {l : List Argument} {a : Argument},
    l.find? (fun x => x.name = nm) = some a → a.val.isValid = false →
    ∃ l', setArgList l nm v = .ok l'
  | [], a, hf, _ => by simp at hf
  | b :: rest, a, hf, hv => by
    by_cases hn : b.name = nm
    · rw [List.find?_cons_of_pos _ (by simp [hn])] at hf
      have hba : b = a := Option.some.inj hf
      refine ⟨{ b with val := v } :: rest, ?_⟩
      simp only [setArgList, if_pos hn]
      rw [if_neg (by simp [hba, hv])]
    · rw [List.find?_cons_of_neg _ (by simp [hn])] at hf
      rcases setArgList_ok_of_unbound (l := rest) hf hv with ⟨r, hr⟩
      refine ⟨b :: r, ?_⟩
      simp only [setArgList, if_neg hn]
      rw [hr]

/-- Claim C6 (confirmed): binding a value to a named port fails with
the port-not-found panic exactly when no slot carries that name, fails
with the already-bound panic exactly when the located slot (the first
of that name) already holds a valid value, and otherwise stores the
value into that slot; once a valid value is stored, any further bind on
that port fails, so every port is bound at most once. -/
theorem claim_C6 (node : Node) (s : String) (v : RVal) :
    (node.setArg s v = .error .argNotFound ↔
      node.args.find? (fun a => a.name = s) = none) ∧
    (node.setArg s v = .error (.argAlreadySet s) ↔
      ∃ a, node.args.find? (fun a => a.name = s) = some a ∧ a.val.isValid = true) ∧
    (∀ a, node.args.find? (fun a => a.name = s) = some a → a.val.isValid = false →
      ∃ node', node.setArg s v = .ok node' ∧
        node'.args.find? (fun x => x.name = s) = some { a with val := v }) ∧
    (v.isValid = true → ∀ node' w, node.setArg s v = .ok node' →
      node'.setArg s w = .error (.argAlreadySet s)) := by
  refine ⟨?_, ?_, ?_, ?_⟩
  · rw [← setArgList_notFound (l := node.args) (n := s) (v := v)]
    unfold Node.setArg
    cases hs : setArgList node.args s v <;> simp
  · rw [← setArgList_already (l := node.args) (n := s) (v := v)]
    unfold Node.setArg
    cases hs : setArgList node.args s v <;> simp
  · intro a hf hv
    rcases setArgList_ok_of_unbound (v := v) hf hv with ⟨l', hl'⟩
    rcases setArgList_ok_spec hl' with ⟨b, hfind, _, hfind', _, _⟩
    have hba : b = a := Option.some.inj (hfind.symm.trans hf)
    refine ⟨{ node with args := l' }, ?_, ?_⟩
    · unfold Node.setArg
      rw [hl']
    · rw [← hba]
      exact hfind'
  · intro hvv node' w hok
    unfold Node.setArg at hok
    cases hs : setArgList node.args s v with
    | error e =>
      rw [hs] at hok
      exact absurd hok (by simp)
    | ok l' =>
      rw [hs] at hok
      have hn' : node' = { node with args := l' } := (Except.ok.inj hok).symm
      subst hn'
      rcases setArgList_ok_spec hs with ⟨b, _, _, hfind', _, _⟩
      unfold Node.setArg
      have : setArgList l' s w = .error (.argAlreadySet s) :=
        setArgList_already.mpr ⟨{ b with val := v }, hfind', by simpa using hvv⟩
      rw [this]

/-- Witness for C6 on the concrete node `A` of `gA`: binding an unknown
port fails with the not-found panic; rebinding the already-bound
`globals` slot fails with the already-set panic. -/
theorem claim_C6_witness :
    nodeA.setArg "Z" (.other 5) = .error .argNotFound ∧
    nodeA.setArg "globals" (.other 5) = .error (.argAlreadySet "globals") := by
  refine ⟨(claim_C6 nodeA "Z" (.other 5)).1.mpr (by decide), ?_⟩
  exact (claim_C6 nodeA "globals" (.other 5)).2.1.mpr
    ⟨⟨"globals", .other 0, .base 0⟩, by decide, by decide⟩

/-! Lemmas about `buildArgs` / `newNode` / `Graph.addNode`. -/

theorem buildArgs_ok_iff (ft : FuncType) : ∀ (names : List String) (start : Nat),
    (∃ l, buildArgs ft start names = .ok l) ↔
      ∀ j, j < names.length → (argTypeAt ft (start + j)).isSome = true
  | [], start => by simp [buildArgs]
  | nm :: rest, start => by
    constructor
    · rintro ⟨l, hl⟩ j hj
      simp only [buildArgs] at hl
      cases ht : argTypeAt ft start with
      | none =>
        rw [ht] at hl
        exact absurd hl (by simp)
      | some t =>
        rw [ht] at hl
        cases hb : buildArgs ft (start + 1) rest with
        | error e =>
          rw [hb] at hl
          exact absurd hl (by simp)
        | ok tl =>
          cases j with
          | zero => simp [ht]
          | succ j' =>
            have hrec := (buildArgs_ok_iff ft rest (start + 1)).mp ⟨tl, hb⟩ j'
              (by simpa using Nat.lt_of_succ_lt_succ hj)
            rwa [show start + (j' + 1) = start + 1 + j' from by omega]
    · intro h
      have ht : (argTypeAt ft start).isSome = true := by simpa using h 0 (by simp)
      rcases Option.isSome_iff_exists.mp ht with ⟨t, htt⟩
      have hrest : ∃ l, buildArgs ft (start + 1) rest = .ok l :=
        (buildArgs_ok_iff ft rest (start + 1)).mpr (fun j hj => by
          have := h (j + 1) (by simpa using Nat.succ_lt_succ hj)
          rwa [show start + (j + 1) = start + 1 + j from by omega] at this)
      rcases hrest with ⟨tl, hb⟩
      exact ⟨⟨nm, .invalid, t⟩ :: tl, by simp [buildArgs, htt, hb]⟩

theorem buildArgs_error_eq (ft : FuncType) : ∀ (names : List String) (start : Nat) (e : GlowErr),
    buildArgs ft start names = .error e → e = .reflectPanic
  | [], _, e, h => by simp [buildArgs] at h
  | nm :: rest, start, e, h => by
    simp only [buildArgs] at h
    cases ht : argTypeAt ft start with
    | none =>
      rw [ht] at h
      have := Except.error.inj h
      exact this.symm
    | some t =>
      rw [ht] at h
      cases hb : buildArgs ft (start + 1) rest with
      | error e' =>
        rw [hb] at h
        have he : e' = e := Except.error.inj h
        rw [← he]
        exact buildArgs_error_eq ft rest (start + 1) e' hb
      | ok tl =>
        rw [hb] at h
        exact absurd h (by simp)

theorem buildArgs_spec (ft : FuncType) : ∀ (names : List String) (start : Nat) (l : List Argument),
    buildArgs ft start names = .ok l →
    l.length = names.length ∧
    ∀ j nm, names.get? j = some nm →
      ∃ t, argTypeAt ft (start + j) = some t ∧ l.get? j = some ⟨nm, .invalid, t⟩
  | [], start, l, h => by
    simp only [buildArgs] at h
    have hl : l = [] := (Except.ok.inj h).symm
    subst hl
    simp
  | nm0 :: rest, start, l, h => by
    simp only [buildArgs] at h
    cases ht : argTypeAt ft start with
    | none =>
      rw [ht] at h
      exact absurd h (by simp)
    | some t =>
      rw [ht] at h
      cases hb : buildArgs ft (start + 1) rest with
      | error e =>
        rw [hb] at h
        exact absurd h (by simp)
      | ok tl =>
        rw [hb] at h
        have hl : l = ⟨nm0, .invalid, t⟩ :: tl := (Except.ok.inj h).symm
        subst hl
        rcases buildArgs_spec ft rest (start + 1) tl hb with ⟨hlen, hget⟩
        refine ⟨by simp [hlen], ?_⟩
        intro j nm hj
        cases j with
        | zero =>
          have hnm : nm0 = nm := by simpa using hj
          exact ⟨t, by simpa using ht, by simp [hnm]⟩
        | succ j' =>
          have hj' : rest.get? j' = some nm := by simpa using hj
          rcases hget j' nm hj' with ⟨t', ht', hl'⟩
          refine ⟨t', ?_, by simpa using hl'⟩
          rwa [show start + (j' + 1) = start + 1 + j' from by omega]

theorem argTypeAt_nonvariadic {ft : FuncType} (hnv : ft.variadic = false) (i : Nat) :
    argTypeAt ft i = ft.params.get? i := by
  unfold argTypeAt
  rw [if_neg (by simp [hnv])]

theorem argTypeAt_variadic (ps : List GoType) (e : GoType) (i : Nat) :
    argTypeAt ⟨ps ++ [GoType.slice e], true⟩ i =
      if ps.length ≤ i then some e else ps.get? i := by
  unfold argTypeAt
  by_cases h : ps.length ≤ i
  · rw [if_pos (by simp; omega), if_pos h]
    have hlen : (ps ++ [GoType.slice e]).length - 1 = ps.length := by simp
    rw [hlen, List.get?_concat_length]
    rfl
  · rw [if_neg (by simp; omega), if_neg h]
    exact List.get?_append (by omega)

theorem addNode_eq_dup {g : Graph} {ft : FuncType} {nm : String} {names : List String}
    (hdup : (lookupNode g nm).isSome = true) :
    g.addNode ft nm names = .error (.nodeAlreadyAdded nm) := by
  unfold Graph.addNode
  rw [if_pos hdup]

theorem addNode_eq_error_build {g : Graph} {ft : FuncType} {nm : String} {names : List String}
    {e : GlowErr} (hfresh : (lookupNode g nm).isSome = false)
    (hb : buildArgs ft 0 ("globals" :: names) = .error e) :
    g.addNode ft nm names = .error e := by
  unfold Graph.addNode newNode
  rw [if_neg (by simp [hfresh]), hb]

theorem addNode_eq_error_set {g : Graph} {ft : FuncType} {nm : String} {names : List String}
    {args : List Argument} {e : GlowErr} (hfresh : (lookupNode g nm).isSome = false)
    (hb : buildArgs ft 0 ("globals" :: names) = .ok args)
    (hs : setArgList args "globals" g.globals = .error e) :
    g.addNode ft nm names = .error e := by
  unfold Graph.addNode newNode Node.setArg
  rw [if_neg (by simp [hfresh]), hb]
  simp only [hs]

theorem addNode_eq_ok {g : Graph} {ft : FuncType} {nm : String} {names : List String}
    {args args' : List Argument} (hfresh : (lookupNode g nm).isSome = false)
    (hb : buildArgs ft 0 ("globals" :: names) = .ok args)
    (hs : setArgList args "globals" g.globals = .ok args') :
    g.addNode ft nm names =
      .ok { g with nodes := g.nodes ++ [(nm, { name := nm, ft := ft, args := args' })] } := by
  unfold Graph.addNode newNode Node.setArg
  rw [if_neg (by simp [hfresh]), hb]
  simp only [hs]

theorem addNode_ok_spec {g : Graph} {ft : FuncType} {nm : String} {names : List String}
    {g' : Graph} (h : g.addNode ft nm names = .ok g') :
    ∃ args args', buildArgs ft 0 ("globals" :: names) = .ok args ∧
      setArgList args "globals" g.globals = .ok args' ∧
      g' = { g with nodes := g.nodes ++ [(nm, { name := nm, ft := ft, args := args' })] } := by
  by_cases hfresh : (lookupNode g nm).isSome = true
  · rw [addNode_eq_dup hfresh] at h
    exact absurd h (by simp)
  · have hfresh' : (lookupNode g nm).isSome = false := by simpa using hfresh
    rcases hb : buildArgs ft 0 ("globals" :: names) with e | args
    · rw [addNode_eq_error_build hfresh' hb] at h
      exact absurd h (by simp)
    · rcases hs : setArgList args "globals" g.globals with e | args'
      · rw [addNode_eq_error_set hfresh' hb hs] at h
        exact absurd h (by simp)
      · rw [addNode_eq_ok hfresh' hb hs] at h
        exact ⟨args, args', rfl, hs, (Except.ok.inj h).symm⟩

theorem addNode_ok_of {g : Graph} {ft : FuncType} {nm : String} {names : List String}
    (hfresh : lookupNode g nm = none)
    (harity : ∀ j, j < names.length + 1 → (argTypeAt ft j).isSome = true) :
    ∃ nd, g.addNode ft nm names = .ok { g with nodes := g.nodes ++ [(nm, nd)] } := by
  have harity' : ∀ j, j < ("globals" :: names).length → (argTypeAt ft (0 + j)).isSome = true := by
    intro j hj
    have := harity j (by simpa using hj)
    simpa using this
  rcases (buildArgs_ok_iff ft ("globals" :: names) 0).mpr harity' with ⟨args, hargs⟩
  rcases buildArgs_spec ft _ 0 args hargs with ⟨hlen, hget⟩
  rcases hget 0 "globals" rfl with ⟨t, _, hget0⟩
  rcases args with _ | ⟨a0, tl⟩
  · exact absurd hget0 (by simp)
  · have ha0 : a0 = ⟨"globals", .invalid, t⟩ := by simpa using hget0
    have hset : setArgList (a0 :: tl) "globals" g.globals =
        .ok ({ a0 with val := g.globals } :: tl) := by
      rw [ha0]
      simp [setArgList, RVal.isValid]
    exact ⟨{ name := nm, ft := ft, args := { a0 with val := g.globals } :: tl },
      addNode_eq_ok (by simp [hfresh]) hargs hset⟩

/-- Claim C7 (confirmed): `AddNode` with a name already registered
signals the duplicate-name panic before constructing or storing
anything, so the registry is untouched; with a fresh name (and a
signature that introspection accepts) it appends exactly one new node
to the registry. -/
theorem claim_C7 (g : Graph) (ft : FuncType) (nm : String) (names : List String) :
    ((lookupNode g nm).isSome = true →
      g.addNode ft nm names = .error (.nodeAlreadyAdded nm)) ∧
    (lookupNode g nm = none →
      (∀ j, j < names.length + 1 → (argTypeAt ft j).isSome = true) →
      ∃ nd, g.addNode ft nm names = .ok { g with nodes := g.nodes ++ [(nm, nd)] }) := by
  constructor
  · intro h
    exact addNode_eq_dup h
  · intro hfresh harity
    exact addNode_ok_of hfresh harity

/-- Witness for C7: re-registering `"A"` on `gA` signals the duplicate
panic; registering the fresh `"B"` succeeds. -/
theorem claim_C7_witness :
    gA.addNode ftChan2 "A" ["X"] = .error (.nodeAlreadyAdded "A") ∧
    isOkG (gA.addNode ftChan2 "B" ["Y"]) = true := by
  refine ⟨(claim_C7 gA ftChan2 "A" ["X"]).1 (by decide), ?_⟩
  rcases (claim_C7 gA ftChan2 "B" ["Y"]).2 (by decide) (by decide) with ⟨nd, hnd⟩
  rw [hnd]
  rfl

/-- Claim C4 (amended): for a non-variadic callable, registration
panics (through reflect's `In`, the arity fault) exactly when the
supplied port names plus the implicit `globals` slot outnumber the
callable's parameters; supplying *fewer* names than parameters is not
detected — the node registers with the surplus parameters simply
having no ports. -/
theorem claim_C4_amended (g : Graph) (ft : FuncType) (nm : String) (names : List String)
    (hfresh : lookupNode g nm = none) (hnv : ft.variadic = false) :
    (ft.params.length < names.length + 1 →
      g.addNode ft nm names = .error .reflectPanic) ∧
    (names.length + 1 ≤ ft.params.length →
      isOkG (g.addNode ft nm names) = true) := by
  constructor
  · intro hlt
    rcases hb : buildArgs ft 0 ("globals" :: names) with e | args
    · have he : e = .reflectPanic := buildArgs_error_eq ft _ 0 e hb
      rw [← he]
      exact addNode_eq_error_build (by simp [hfresh]) hb
    · exfalso
      have := (buildArgs_ok_iff ft ("globals" :: names) 0).mp ⟨args, hb⟩
        ft.params.length (by simp; omega)
      rw [argTypeAt_nonvariadic hnv] at this
      simp [List.get?_eq_none.mpr (Nat.le_refl _)] at this
  · intro hle
    have harity : ∀ j, j < names.length + 1 → (argTypeAt ft j).isSome = true := by
      intro j hj
      rw [argTypeAt_nonvariadic hnv]
      have hjp : j < ft.params.length := by omega
      simp [List.getElem?_eq_getElem hjp]
    rcases addNode_ok_of hfresh harity with ⟨nd, hnd⟩
    rw [hnd]
    rfl

/-- Witness for C4 (amended): two port names on a two-parameter
callable overflow the signature and panic; one port name registers
fine. -/
theorem claim_C4_witness :
    (Graph.new (.other 0)).addNode ftChan2 "A" ["X", "Y"] = .error .reflectPanic ∧
    isOkG ((Graph.new (.other 0)).addNode ftChan2 "A" ["X"]) = true := by
  have h1 := claim_C4_amended (Graph.new (.other 0)) ftChan2 "A" ["X", "Y"] (by decide) (by decide)
  have h2 := claim_C4_amended (Graph.new (.other 0)) ftChan2 "A" ["X"] (by decide) (by decide)
  exact ⟨h1.1 (by decide), h2.2 (by decide)⟩

/-- Counterexample for C4 as stated: `ftThree` requires two port names
(three parameters, one consumed by `globals`), yet registering it with
*zero* port names — fewer than required — succeeds instead of failing
with a signature-arity error. -/
theorem claim_C4_counterexample :
    ftThree.params.length = 3 ∧
    isOkG ((Graph.new (.other 0)).addNode ftThree "A" []) = true := by
  constructor <;> decide

/-- Claim C5 (confirmed): registering a variadic callable types every
port slot at or beyond the last parameter position with the *element
type* of the variadic (slice) tail, while earlier slots take the
corresponding fixed parameter types. -/
theorem claim_C5 (ps : List GoType) (e : GoType) (nm : String) (names : List String)
    (nd : Node) (h : newNode ⟨ps ++ [GoType.slice e], true⟩ nm names = .ok nd) :
    nd.args.length = names.length + 1 ∧
    ∀ i, i < names.length + 1 →
      (nd.args.get? i).map Argument.type =
        if ps.length ≤ i then some e else ps.get? i := by
  have hargs : ∃ args, buildArgs ⟨ps ++ [GoType.slice e], true⟩ 0 ("globals" :: names) = .ok args ∧
      nd = { name := nm, ft := ⟨ps ++ [GoType.slice e], true⟩, args := args } := by
    unfold newNode at h
    rcases hb : buildArgs ⟨ps ++ [GoType.slice e], true⟩ 0 ("globals" :: names) with e' | args
    · rw [hb] at h
      exact absurd h (by simp)
    · rw [hb] at h
      exact ⟨args, rfl, (Except.ok.inj h).symm⟩
  rcases hargs with ⟨args, hb, hnd⟩
  rcases buildArgs_spec _ _ 0 args hb with ⟨hlen, hget⟩
  subst hnd
  refine ⟨by simpa using hlen, ?_⟩
  intro i hi
  have hi' : i < ("globals" :: names).length := by simpa using hi
  have hgnm := List.get?_eq_get hi'
  rcases hget i _ hgnm with ⟨t, ht, hgt⟩
  rw [show (0 : Nat) + i = i from by omega, argTypeAt_variadic] at ht
  simp only [hgt, Option.map_some']
  rw [← ht]

/-- Witness for C5 on the variadic fixture `ndV` (`ps` of length 2,
four named ports): slot 1 takes the fixed parameter type and slot 3
(beyond the fixed parameters) takes the tail's element type. -/
theorem claim_C5_witness :
    (ndV.args.get? 3).map Argument.type = some (.chan (.base 2)) ∧
    (ndV.args.get? 1).map Argument.type = some (.chan (.base 1)) := by
  have h := claim_C5 [.base 0, .chan (.base 1)] (.chan (.base 2)) "V" ["a", "b", "c", "d"]
    ndV rfl
  have h3 := h.2 3 (by decide)
  have h1 := h.2 1 (by decide)
  constructor
  · simpa using h3
  · simpa using h1

/-- Claim C8 (confirmed): a successful registration appends one node
whose slot list has `1 + n` entries in order: slot 0 is named
`globals` and already holds the graph's shared globals value, and
slots `1..n` carry the supplied port names in order, still unbound. -/
theorem claim_C8 (g g' : Graph) (ft : FuncType) (nm : String) (names : List String)
    (h : g.addNode ft nm names = .ok g') :
    ∃ nd, g'.nodes = g.nodes ++ [(nm, nd)] ∧ nd.name = nm ∧
      nd.args.length = names.length + 1 ∧
      (nd.args.get? 0).map Argument.name = some "globals" ∧
      (nd.args.get? 0).map Argument.val = some g.globals ∧
      (∀ i, (nd.args.get? (i + 1)).map Argument.name = names.get? i) ∧
      (∀ i a, nd.args.get? (i + 1) = some a → a.val = RVal.invalid) := by
  rcases addNode_ok_spec h with ⟨args, args', hb, hs, hg'⟩
  rcases buildArgs_spec ft _ 0 args hb with ⟨hlen, hget⟩
  rcases hget 0 "globals" rfl with ⟨t, _, hget0⟩
  rcases args with _ | ⟨a0, tl⟩
  · exact absurd hget0 (by simp)
  · have ha0 : a0 = ⟨"globals", .invalid, t⟩ := by simpa using hget0
    subst ha0
    have hs' : args' = ⟨"globals", g.globals, t⟩ :: tl := by
      simp [setArgList, RVal.isValid] at hs
      exact hs.symm
    refine ⟨{ name := nm, ft := ft, args := args' }, by rw [hg'], rfl, ?_, ?_, ?_, ?_, ?_⟩
    · rw [hs']
      have : tl.length = names.length := by simpa using hlen
      simp [this]
    · rw [hs']
      rfl
    · rw [hs']
      rfl
    · intro i
      rw [hs']
      have hlen' : tl.length = names.length := by simpa using hlen
      have hcons : ((⟨"globals", g.globals, t⟩ :: tl : List Argument).get? (i + 1)) =
          tl.get? i := rfl
      by_cases hi : i < names.length
      · rcases hget (i + 1) (names.get ⟨i, hi⟩) (List.get?_eq_get hi) with ⟨t', _, hgt⟩
        have htl : tl.get? i = some ⟨names.get ⟨i, hi⟩, .invalid, t'⟩ := hgt
        rw [hcons, htl, List.get?_eq_get hi]
        rfl
      · have h1 : tl.get? i = none := by
          rw [List.get?_eq_none]
          omega
        have h2 : names.get? i = none := by
          rw [List.get?_eq_none]
          omega
        rw [hcons, h1, h2]
        rfl
    · intro i a hia
      rw [hs'] at hia
      have hlen' : tl.length = names.length := by simpa using hlen
      have hia' : tl.get? i = some a := hia
      have hi : i < names.length := by
        by_contra hcon
        rw [List.get?_eq_none.mpr (by omega)] at hia'
        exact absurd hia' (by simp)
      rcases hget (i + 1) (names.get ⟨i, hi⟩) (List.get?_eq_get hi) with ⟨t', _, hgt⟩
      have htl : tl.get? i = some ⟨names.get ⟨i, hi⟩, .invalid, t'⟩ := by simpa using hgt
      rw [htl] at hia'
      have ha := Option.some.inj hia'
      rw [← ha]

/-- Witness for C8: registering `"B"` with one port on `gA` yields a
registry one entry longer. -/
theorem claim_C8_witness : gAB.nodes.length = gA.nodes.length + 1 := by
  rcases claim_C8 gA gAB ftChan2 "B" ["Y"] rfl with ⟨nd, h1, -⟩
  rw [h1]
  simp

/-! Lemmas about `portVal`, `updateNode` and the `Graph.connect` loop. -/

theorem resolvesUnbound_iff {g : Graph} {s : String} :
    resolvesUnbound g s = true ↔
      ∃ nm pt, splitNamePort s = some (nm, pt) ∧ portVal g nm pt = some RVal.invalid := by
  unfold resolvesUnbound
  cases hs : splitNamePort s with
  | none => simp
  | some p =>
    rcases p with ⟨nm, pt⟩
    simp only [decide_eq_true_eq]
    constructor
    · intro h
      exact ⟨nm, pt, rfl, h⟩
    · rintro ⟨nm1, pt1, h12, h⟩
      have h1 : nm = nm1 := congrArg Prod.fst (Option.some.inj h12)
      have h2 : pt = pt1 := congrArg Prod.snd (Option.some.inj h12)
      subst h1
      subst h2
      exact h

theorem portVal_eq_iff {g : Graph} {nm pt : String} {v : RVal} :
    portVal g nm pt = some v ↔
      ∃ nd a, lookupNode g nm = some nd ∧
        nd.args.find? (fun x => x.name = pt) = some a ∧ a.val = v := by
  unfold portVal
  cases hl : lookupNode g nm with
  | none => simp
  | some nd =>
    simp only [Option.some_bind, Option.map_eq_some']
    constructor
    · rintro ⟨a, ha, hv⟩
      exact ⟨nd, a, rfl, ha, hv⟩
    · rintro ⟨nd', a, hnd, ha, hv⟩
      rcases Option.some.inj hnd
      exact ⟨a, ha, hv⟩

theorem portType_of_find {g : Graph} {nm pt : String} {nd : Node} {a : Argument}
    (hl : lookupNode g nm = some nd)
    (hf : nd.args.find? (fun x => x.name = pt) = some a) :
    portType g nm pt = some a.type := by
  unfold portType
  rw [hl]
  simp [hf]

theorem lookup_updateNode_self : ∀ {ns : List (String × Node)} {nm : String} {nd' : Node},
    (ns.find? (fun p => p.1 = nm)).isSome = true →
    (updateNode ns nm nd').find? (fun p => p.1 = nm) = some (nm, nd')
  | [], nm, nd', h => by simp at h
  | (k, nd0) :: rest, nm, nd', h => by
    by_cases hk : k = nm
    · subst hk
      simp only [updateNode, if_pos rfl]
      exact List.find?_cons_of_pos _ (by simp)
    · simp only [updateNode, if_neg hk]
      rw [List.find?_cons_of_neg _ (by simp [hk])]
      apply lookup_updateNode_self
      rw [List.find?_cons_of_neg _ (by simp [hk])] at h
      exact h

theorem lookup_updateNode_ne {m nm : String} (hne : m ≠ nm) :
    ∀ {ns : List (String × Node)} {nd' : Node},
    (updateNode ns nm nd').find? (fun p => p.1 = m) = ns.find? (fun p => p.1 = m)
  | [], nd' => rfl
  | (k, nd0) :: rest, nd' => by
    by_cases hk : k = nm
    · subst hk
      have hu : updateNode ((k, nd0) :: rest) k nd' = (k, nd') :: rest := by
        simp [updateNode]
      rw [hu]
      rw [List.find?_cons_of_neg _ (by simp; exact fun hc => hne hc.symm),
        List.find?_cons_of_neg _ (by simp; exact fun hc => hne hc.symm)]
    · simp only [updateNode, if_neg hk]
      by_cases hkm : k = m
      · subst hkm
        rw [List.find?_cons_of_pos _ (by simp), List.find?_cons_of_pos _ (by simp)]
      · rw [List.find?_cons_of_neg _ (by simp [hkm]), List.find?_cons_of_neg _ (by simp [hkm])]
        exact lookup_updateNode_ne hne

theorem portVal_update {g : Graph} {nm pt : String} {ch : RVal} {nd nd' : Node}
    (hl : lookupNode g nm = some nd) (hs : nd.setArg pt ch = .ok nd') :
    portVal { g with nodes := updateNode g.nodes nm nd' } nm pt = some ch ∧
    (∀ m q, ¬(m = nm ∧ q = pt) →
      portVal { g with nodes := updateNode g.nodes nm nd' } m q = portVal g m q) ∧
    (∀ m q, portType { g with nodes := updateNode g.nodes nm nd' } m q = portType g m q) ∧
    (∀ m, (lookupNode { g with nodes := updateNode g.nodes nm nd' } m).isSome =
      (lookupNode g m).isSome) := by
  have hsl : ∃ args', setArgList nd.args pt ch = .ok args' ∧ nd' = { nd with args := args' } := by
    unfold Node.setArg at hs
    rcases hsa : setArgList nd.args pt ch with e | args'
    · rw [hsa] at hs
      exact absurd hs (by simp)
    · rw [hsa] at hs
      exact ⟨args', rfl, (Except.ok.inj hs).symm⟩
  rcases hsl with ⟨args', hsa, hnd'⟩
  rcases setArgList_ok_spec hsa with ⟨b, hfb, hbv, hfb', hpres, htypes⟩
  have hsome : (g.nodes.find? (fun p => p.1 = nm)).isSome = true := by
    unfold lookupNode at hl
    rcases hfind : g.nodes.find? (fun p => p.1 = nm) with _ | p
    · rw [hfind] at hl
      exact absurd hl (by simp)
    · rw [hfind]
      rfl
  have hlup : lookupNode { g with nodes := updateNode g.nodes nm nd' } nm = some nd' := by
    unfold lookupNode
    rw [lookup_updateNode_self hsome]
    rfl
  refine ⟨?_, ?_, ?_, ?_⟩
  · unfold portVal
    rw [hlup]
    rw [hnd']
    simp [hfb']
  · intro m q hmq
    by_cases hm : m = nm
    · subst hm
      have hq : q ≠ pt := fun hc => hmq ⟨rfl, hc⟩
      unfold portVal
      rw [hlup, hl, hnd']
      simp only [Option.some_bind]
      rw [hpres q hq]
    · unfold portVal
      unfold lookupNode
      rw [lookup_updateNode_ne hm]
  · intro m q
    by_cases hm : m = nm
    · subst hm
      unfold portType
      rw [hlup, hl, hnd']
      simp only [Option.some_bind]
      rw [htypes q]
    · unfold portType
      unfold lookupNode
      rw [lookup_updateNode_ne hm]
  · intro m
    by_cases hm : m = nm
    · subst hm
      rw [hlup, hl]
      rfl
    · unfold lookupNode
      rw [lookup_updateNode_ne hm]

theorem pair_ne_of_head {s0 t : String} {nm0 pt0 m q : String}
    (h : splitNamePort s0 ≠ splitNamePort t)
    (h0 : splitNamePort s0 = some (nm0, pt0)) (ht : splitNamePort t = some (m, q)) :
    ¬(m = nm0 ∧ q = pt0) := by
  rintro ⟨h1, h2⟩
  apply h
  rw [h0, ht, h1, h2]

theorem connectLoop_ok (ch : RVal) : ∀ (l : List String) (g : Graph),
    (∀ s ∈ l, resolvesUnbound g s = true) →
    (l.map splitNamePort).Pairwise (fun x y => x ≠ y) →
    ∃ g', (∀ rest, connectLoop ch g (l ++ rest) = connectLoop ch g' rest) ∧
      (∀ s nm pt, s ∈ l → splitNamePort s = some (nm, pt) → portVal g' nm pt = some ch) ∧
      (∀ m q, (∀ s ∈ l, splitNamePort s ≠ some (m, q)) → portVal g' m q = portVal g m q) ∧
      (∀ m q, portType g' m q = portType g m q) ∧
      (∀ m, (lookupNode g' m).isSome = (lookupNode g m).isSome) := by
  intro l
  induction l with
  | nil =>
    intro g _ _
    exact ⟨g, fun rest => rfl, by simp, fun m q _ => rfl, fun m q => rfl, fun m => rfl⟩
  | cons s0 l ih =>
    intro g hres hpair
    rcases List.pairwise_cons.mp hpair with ⟨hhead, hptail⟩
    rcases resolvesUnbound_iff.mp (hres s0 (List.mem_cons_self _ _)) with
      ⟨nm0, pt0, hsp0, hpv0⟩
    rcases portVal_eq_iff.mp hpv0 with ⟨nd0, a0, hl0, hf0, hv0⟩
    have hval0 : a0.val.isValid = false := by rw [hv0]; rfl
    rcases setArgList_ok_of_unbound (v := ch) hf0 hval0 with ⟨args', hsl⟩
    have hset : nd0.setArg pt0 ch = .ok { nd0 with args := args' } := by
      unfold Node.setArg
      rw [hsl]
    rcases portVal_update hl0 hset with ⟨hb1, hpres1, htype1, hlook1⟩
    have hstep : ∀ rest, connectLoop ch g (s0 :: rest) =
        connectLoop ch { g with nodes := updateNode g.nodes nm0 { nd0 with args := args' } }
          rest := by
      intro rest
      simp only [connectLoop, hsp0, hl0, hset]
    have hres1 : ∀ t ∈ l, resolvesUnbound
        { g with nodes := updateNode g.nodes nm0 { nd0 with args := args' } } t = true := by
      intro t ht
      rcases resolvesUnbound_iff.mp (hres t (List.mem_cons_of_mem _ ht)) with ⟨m, q, hspt, hpv⟩
      have hne := pair_ne_of_head (hhead (splitNamePort t) (List.mem_map_of_mem _ ht)) hsp0 hspt
      exact resolvesUnbound_iff.mpr ⟨m, q, hspt, (hpres1 m q hne).trans hpv⟩
    rcases ih _ hres1 hptail with ⟨g', hrun, hbound, hpres, htype, hlook⟩
    refine ⟨g', ?_, ?_, ?_, ?_, ?_⟩
    · intro rest
      exact (hstep (l ++ rest)).trans (hrun rest)
    · intro s nm pt hs hsp
      rcases List.mem_cons.mp hs with he | hm
      · subst he
        have hinj := Option.some.inj (hsp0.symm.trans hsp)
        have h1 : nm0 = nm := congrArg Prod.fst hinj
        have h2 : pt0 = pt := congrArg Prod.snd hinj
        subst h1
        subst h2
        have hnot : ∀ t ∈ l, splitNamePort t ≠ some (nm0, pt0) := by
          intro t ht hc
          exact pair_ne_of_head (hhead (splitNamePort t) (List.mem_map_of_mem _ ht)) hsp0 hc
            ⟨rfl, rfl⟩
        exact (hpres nm0 pt0 hnot).trans hb1
      · exact hbound s nm pt hm hsp
    · intro m q hnone
      refine ((hpres m q ?_).trans (hpres1 m q ?_))
      · intro t ht
        exact hnone t (List.mem_cons_of_mem _ ht)
      · rintro ⟨h1, h2⟩
        exact hnone s0 (List.mem_cons_self _ _) (by rw [hsp0, h1, h2])
    · intro m q
      exact (htype m q).trans (htype1 m q)
    · intro m
      exact (hlook m).trans (hlook1 m)

/-- Claim C1 (amended): when every endpoint resolves to a registered
node and an unbound port, the resolved (node, port) pairs are pairwise
distinct, the first endpoint's port has a *channel* declared type, and
the capacity is nonnegative, `Connect` creates exactly one channel of
the given capacity and of the first port's declared type, binds that
identical channel into every listed endpoint (and touches no other
port), and returns it. -/
theorem claim_C1_amended (g : Graph) (size : Int) (s0 : String) (rest : List String)
    (e : GoType) (nm0 pt0 : String)
    (hsp0 : splitNamePort s0 = some (nm0, pt0))
    (hres : ∀ s ∈ s0 :: rest, resolvesUnbound g s = true)
    (hdist : ((s0 :: rest).map splitNamePort).Pairwise (fun x y => x ≠ y))
    (htype : portType g nm0 pt0 = some (.chan e))
    (hsize : 0 ≤ size) :
    ∃ g', g.connect size (s0 :: rest) =
        (g', .ok (.chanRef (.chan e) size g.lastChan)) ∧
      (∀ s nm pt, s ∈ s0 :: rest → splitNamePort s = some (nm, pt) →
        portVal g' nm pt = some (.chanRef (.chan e) size g.lastChan)) ∧
      (∀ m q, (∀ s ∈ s0 :: rest, splitNamePort s ≠ some (m, q)) →
        portVal g' m q = portVal g m q) := by
  rcases resolvesUnbound_iff.mp (hres s0 (List.mem_cons_self _ _)) with
    ⟨nm0', pt0', hsp0', hpv0⟩
  have hinj := Option.some.inj (hsp0'.symm.trans hsp0)
  have h1 : nm0' = nm0 := congrArg Prod.fst hinj
  have h2 : pt0' = pt0 := congrArg Prod.snd hinj
  rw [h1, h2] at hpv0
  rcases portVal_eq_iff.mp hpv0 with ⟨nd0, a0, hl0, hf0, hv0⟩
  have ha0t : a0.type = .chan e := by
    have := (portType_of_find hl0 hf0).symm.trans htype
    exact Option.some.inj this
  have hmk : nd0.makeChan pt0 size g.lastChan =
      .ok (.chanRef (.chan e) size g.lastChan) := by
    simp [Node.makeChan, hf0, ha0t, hsize]
  have hres1 : ∀ s ∈ s0 :: rest,
      resolvesUnbound { g with lastChan := g.lastChan + 1 } s = true := fun s hs => hres s hs
  obtain ⟨g', hrun, hbound, hpres, -, -⟩ :=
    connectLoop_ok (.chanRef (.chan e) size g.lastChan) (s0 :: rest)
      { g with lastChan := g.lastChan + 1 } hres1 hdist
  have hloop : connectLoop (.chanRef (.chan e) size g.lastChan)
      { g with lastChan := g.lastChan + 1 } (s0 :: rest) = (g', .ok ()) := by
    have := hrun []
    rwa [List.append_nil] at this
  refine ⟨g', ?_, ?_, ?_⟩
  · simp only [Graph.connect, hsp0, hl0, hmk, hloop]
  · intro s nm pt hs hsp
    exact hbound s nm pt hs hsp
  · intro m q hnone
    exact hpres m q hnone

/-- Witness for C1 (amended): connecting `A:X` and `B:Y` in `gAB` with
capacity 2 returns the single new channel. -/
theorem claim_C1_witness :
    (gAB.connect 2 ["A:X", "B:Y"]).2 = .ok (.chanRef (.chan (.base 1)) 2 0) := by
  obtain ⟨g', hg, -, -⟩ := claim_C1_amended gAB 2 "A:X" ["B:Y"] (.base 1) "A" "X"
    (by decide) (by decide) (by decide) (by decide) (by decide)
  rw [hg]
  rfl

/-- Counterexample for C1 as stated: in `gInt`, the endpoint `A:X`
resolves to a registered node and an unbound port, yet `Connect` does
not create and return a channel — the port's declared type is not a
channel type, so `reflect.MakeChan` panics. -/
theorem claim_C1_counterexample :
    resolvesUnbound gInt "A:X" = true ∧
    (gInt.connect 1 ["A:X"]).2 = .error .reflectPanic := ⟨rfl, rfl⟩

/-- Claim C2 (amended): when `Connect` fails while processing an
endpoint — because the endpoint has no colon (index-out-of-range), names
an unknown node (nil-pointer), names an unknown port (not-found), or
names a port already bound before the call (already-set) — the matching
panic signals at that endpoint and no later endpoint is processed, but
the call is *not* atomic: every endpoint bound before the failure keeps
its new binding, while ports outside that bound run are unchanged, so
the wiring state differs from the state before the call. -/
theorem claim_C2_amended (g : Graph) (size : Int) (s0 sf : String) (rest1 l2 : List String)
    (e : GoType) (nm0 pt0 : String) (err : GlowErr)
    (hsp0 : splitNamePort s0 = some (nm0, pt0))
    (hres : ∀ s ∈ s0 :: rest1, resolvesUnbound g s = true)
    (hdist : ((s0 :: rest1).map splitNamePort).Pairwise (fun x y => x ≠ y))
    (htype : portType g nm0 pt0 = some (.chan e))
    (hsize : 0 ≤ size)
    (hfail :
      (splitNamePort sf = none ∧ err = .indexOutOfRange) ∨
      (∃ nf pf, splitNamePort sf = some (nf, pf) ∧ lookupNode g nf = none ∧
        err = .nilPointer) ∨
      (∃ nf pf ndf, splitNamePort sf = some (nf, pf) ∧ lookupNode g nf = some ndf ∧
        ndf.args.find? (fun x => x.name = pf) = none ∧ err = .argNotFound) ∨
      (∃ nf pf w, splitNamePort sf = some (nf, pf) ∧ portVal g nf pf = some w ∧
        w.isValid = true ∧ err = .argAlreadySet pf)) :
    ∃ g', g.connect size ((s0 :: rest1) ++ sf :: l2) = (g', .error err) ∧
      (∀ s nm pt, s ∈ s0 :: rest1 → splitNamePort s = some (nm, pt) →
        portVal g' nm pt = some (.chanRef (.chan e) size g.lastChan)) ∧
      (∀ m q, (∀ s ∈ s0 :: rest1, splitNamePort s ≠ some (m, q)) →
        portVal g' m q = portVal g m q) := by
  rcases resolvesUnbound_iff.mp (hres s0 (List.mem_cons_self _ _)) with
    ⟨nm0', pt0', hsp0', hpv0⟩
  have hinj := Option.some.inj (hsp0'.symm.trans hsp0)
  have h1 : nm0' = nm0 := congrArg Prod.fst hinj
  have h2 : pt0' = pt0 := congrArg Prod.snd hinj
  rw [h1, h2] at hpv0
  rcases portVal_eq_iff.mp hpv0 with ⟨nd0, a0, hl0, hf0, hv0⟩
  have ha0t : a0.type = .chan e := by
    have := (portType_of_find hl0 hf0).symm.trans htype
    exact Option.some.inj this
  have hmk : nd0.makeChan pt0 size g.lastChan =
      .ok (.chanRef (.chan e) size g.lastChan) := by
    simp [Node.makeChan, hf0, ha0t, hsize]
  have hres1 : ∀ s ∈ s0 :: rest1,
      resolvesUnbound { g with lastChan := g.lastChan + 1 } s = true := fun s hs => hres s hs
  obtain ⟨g', hrun, hbound, hpres, htypeP, hlook⟩ :=
    connectLoop_ok (.chanRef (.chan e) size g.lastChan) (s0 :: rest1)
      { g with lastChan := g.lastChan + 1 } hres1 hdist
  have hstepf : connectLoop (.chanRef (.chan e) size g.lastChan) g' (sf :: l2) =
      (g', .error err) := by
    rcases hfail with ⟨hnone, he⟩ | ⟨nf, pf, hspf, hlup, he⟩ |
      ⟨nf, pf, ndf, hspf, hlup, hfind, he⟩ | ⟨nf, pf, w, hspf, hw, hwv, he⟩
    · subst he
      simp only [connectLoop, hnone]
    · subst he
      have hg1 : lookupNode { g with lastChan := g.lastChan + 1 } nf = none := hlup
      have hiso := hlook nf
      rw [hg1] at hiso
      have hlup' : lookupNode g' nf = none := by
        rcases hcase : lookupNode g' nf with _ | nd1
        · rfl
        · rw [hcase] at hiso
          simp at hiso
      simp only [connectLoop, hspf, hlup']
    · subst he
      have hg1 : lookupNode { g with lastChan := g.lastChan + 1 } nf = some ndf := hlup
      have hiso := hlook nf
      rw [hg1] at hiso
      rcases hcase : lookupNode g' nf with _ | ndf'
      · rw [hcase] at hiso
        simp at hiso
      · have hptg : portType { g with lastChan := g.lastChan + 1 } nf pf = none := by
          unfold portType
          rw [hg1]
          simp [hfind]
        have hptg' : portType g' nf pf = none := (htypeP nf pf).trans hptg
        have hfind' : ndf'.args.find? (fun x => x.name = pf) = none := by
          rcases hcase2 : ndf'.args.find? (fun x => x.name = pf) with _ | af
          · exact hcase2
          · have hpt := portType_of_find hcase hcase2
            rw [hptg'] at hpt
            exact absurd hpt (by simp)
        have hset : ndf'.setArg pf (.chanRef (.chan e) size g.lastChan) =
            .error .argNotFound := by
          unfold Node.setArg
          rw [setArgList_notFound.mpr hfind']
        simp only [connectLoop, hspf, hcase, hset]
    · subst he
      have hfnot : ∀ s ∈ s0 :: rest1, splitNamePort s ≠ some (nf, pf) := by
        intro s hs hc
        rcases resolvesUnbound_iff.mp (hres s hs) with ⟨m, q, hspm, hpm⟩
        have hm : m = nf := congrArg Prod.fst (Option.some.inj (hspm.symm.trans hc))
        have hq : q = pf := congrArg Prod.snd (Option.some.inj (hspm.symm.trans hc))
        rw [hm, hq] at hpm
        rw [hpm] at hw
        have hwi : w = RVal.invalid := (Option.some.inj hw).symm
        rw [hwi] at hwv
        exact absurd hwv (by simp [RVal.isValid])
      have hwf : portVal g' nf pf = some w := by
        have hp := hpres nf pf hfnot
        exact hp.trans hw
      rcases portVal_eq_iff.mp hwf with ⟨ndf, af, hlf, hff, hvf⟩
      have hsetf : ndf.setArg pf (.chanRef (.chan e) size g.lastChan) =
          .error (.argAlreadySet pf) := by
        unfold Node.setArg
        rw [setArgList_already.mpr ⟨af, hff, by rw [hvf]; exact hwv⟩]
      simp only [connectLoop, hspf, hlf, hsetf]
  have hloop : connectLoop (.chanRef (.chan e) size g.lastChan)
      { g with lastChan := g.lastChan + 1 } (s0 :: (rest1 ++ sf :: l2)) =
      (g', .error err) := by
    have hcomb := (hrun (sf :: l2)).trans hstepf
    rwa [List.cons_append] at hcomb
  refine ⟨g', ?_, ?_, ?_⟩
  · simp only [List.cons_append, Graph.connect, hsp0, hl0, hmk, hloop]
  · intro s nm pt hs hsp
    exact hbound s nm pt hs hsp
  · intro m q hnone
    exact hpres m q hnone

/-- Witness for C2 (amended), one instance per failure mode: a
colon-less second endpoint, an unknown node `C`, an unknown port `B:Z`,
and the pre-bound port `B:Y` of `gPre`; each call fails with the
matching panic after the first endpoint was already bound. -/
theorem claim_C2_witness :
    (gAB.connect 0 (["A:X"] ++ ["AX"])).2 = .error .indexOutOfRange ∧
    (gAB.connect 0 (["A:X"] ++ ["C:Z"])).2 = .error .nilPointer ∧
    (gAB.connect 0 (["A:X"] ++ ["B:Z"])).2 = .error .argNotFound ∧
    (gPre.connect 0 (["A:X"] ++ ["B:Y"])).2 = .error (.argAlreadySet "Y") := by
  obtain ⟨g1, h1, -, -⟩ := claim_C2_amended gAB 0 "A:X" "AX" [] [] (.base 1) "A" "X"
    .indexOutOfRange (by decide) (by decide) (by decide) (by decide) (by decide)
    (Or.inl ⟨by decide, rfl⟩)
  obtain ⟨g2, h2, -, -⟩ := claim_C2_amended gAB 0 "A:X" "C:Z" [] [] (.base 1) "A" "X"
    .nilPointer (by decide) (by decide) (by decide) (by decide) (by decide)
    (Or.inr (Or.inl ⟨"C", "Z", by decide, by decide, rfl⟩))
  obtain ⟨g3, h3, -, -⟩ := claim_C2_amended gAB 0 "A:X" "B:Z" [] [] (.base 1) "A" "X"
    .argNotFound (by decide) (by decide) (by decide) (by decide) (by decide)
    (Or.inr (Or.inr (Or.inl ⟨"B", "Z", nodeB, by decide, by decide, by decide, rfl⟩)))
  obtain ⟨g4, h4, -, -⟩ := claim_C2_amended gPre 0 "A:X" "B:Y" [] [] (.base 1) "A" "X"
    (.argAlreadySet "Y") (by decide) (by decide) (by decide) (by decide) (by decide)
    (Or.inr (Or.inr (Or.inr ⟨"B", "Y", .chanRef (.chan (.base 1)) 0 0, by decide, by decide,
      by decide, rfl⟩)))
  exact ⟨by rw [h1], by rw [h2], by rw [h3], by rw [h4]⟩

/-- Counterexample for C2 as stated: `Connect(0, "A:X", "B:Y")` on
`gPre` fails because `B:Y` is already bound, yet the wiring state is
*not* the same as before the call — `A:X`, unbound before the call, is
left bound to the new channel. -/
theorem claim_C2_counterexample :
    portVal gPre "A" "X" = some RVal.invalid ∧
    (gPre.connect 0 ["A:X", "B:Y"]).2 = .error (.argAlreadySet "Y") ∧
    portVal (gPre.connect 0 ["A:X", "B:Y"]).1 "A" "X" =
      some (.chanRef (.chan (.base 1)) 0 1) := ⟨rfl, rfl, rfl⟩

end Glow
